import Mathlib

/-!
# Verification of the rusted-player library index and playback engine

Shallow embedding of `src/services/metadata_service.rs` (the library
indexing engine, `PlaylistService`) and `src/services/player_service.rs`
(the playback engine, `PlayerService::player_loop`).

Modelling conventions:
* File paths and tag strings are `String`; `std::time::Duration` is a `Nat`
  (a duration is only ever summed here).
* Rust `f32` volumes are modelled as exact rationals `ℚ`; the verified
  properties (clamping bounds, event emission) are order facts on the
  exact values, not rounding facts.
* A `HashMap<String, Vec<usize>>` is modelled by its contents as an
  association list kept in key-insertion order (`entry().or_default().push`
  preserves contents exactly).  Where the Rust code *iterates* a `HashMap`
  (`get_top_artists`), the iteration order is an extra explicit argument,
  constrained only to be a permutation of the contents — Rust's
  `std::collections::HashMap` documents its iteration order as arbitrary.
* `WalkDir::new(dir).into_iter()` yields a stream of
  `Result<DirEntry, Error>`; this is a `List (Option FileEntry)` where
  `none` is an `Err` item (a directory-traversal error).  A root that
  cannot be opened yields the single-element stream `[none]`.
* `lofty`'s probe of one file is a `FileEntry.probe : Option ProbeResult`:
  `some` carries the parsed tags and audio properties, `none` is a parse
  failure (`extract_metadata` returning `Err`).
* Rust code that can panic (`self.tracks[i]`) is embedded with `Option`,
  `none` standing for the panic.
-/

/-- One tag block as exposed by lofty (`Accessor`): each field is present
or absent. Models the data `extract_metadata` reads from a tag. -/
structure Tag where
  album : Option String
  artist : Option String
  genre : Option String
  year : Option Nat
deriving DecidableEq

/-- The result of a successful `Probe::open(path)?.read()?`: the optional
primary/first tag blocks and the audio properties (whose duration is
always present — `FileProperties::duration` is a plain field). -/
structure ProbeResult where
  primaryTag : Option Tag
  firstTag : Option Tag
  durationSecs : Nat
deriving DecidableEq

/-- One `Ok` item of the directory walk: the entry's path, whether it is a
regular file, its extension (`path.extension()`), and what lofty's probe
of it would return (`none` = extraction fails). -/
structure FileEntry where
  path : String
  isFile : Bool
  ext : Option String
  probe : Option ProbeResult
deriving DecidableEq

/-- `TrackMetadata` from `metadata_service.rs`. -/
structure TrackMetadata where
  path : String
  album : Option String
  artist : Option String
  genre : Option String
  year : Option Nat
  duration : Option Nat
deriving DecidableEq

/-- `PlaylistService`: the track collection plus the genre and artist
maps (association lists in key-insertion order, see header). -/
structure PlaylistService where
  tracks : List TrackMetadata
  genres : List (String × List Nat)
  artists : List (String × List Nat)
deriving DecidableEq

/-- `SUPPORTED_AUDIO_EXTENSIONS`. -/
def SUPPORTED_AUDIO_EXTENSIONS : List String :=
  ["mp3", "flac", "ogg", "wav", "m4a", "aac", "wma"]

/-- `normalize_genre`: lowercase, keep only alphanumeric characters. -/
def normalize_genre (genre : String) : String :=
  String.mk ((genre.data.map Char.toLower).filter (fun c => c.isAlphanum))

/-- `str::eq_ignore_ascii_case`, character-wise on the lowered contents. -/
def eqIgnoreAsciiCase (a b : String) : Bool :=
  a.data.map Char.toLower == b.data.map Char.toLower

/-- `is_audio_file_ext`: case-insensitive membership in the supported set. -/
def is_audio_file_ext (ext : String) : Bool :=
  SUPPORTED_AUDIO_EXTENSIONS.any (fun e => eqIgnoreAsciiCase ext e)

/-- `PlaylistService::is_audio_file` on the entry's extension. -/
def is_audio_file (e : FileEntry) : Bool :=
  match e.ext with
  | some x => is_audio_file_ext x
  | none => false

/-- `map.entry(k).or_default().push(i)` on the association-list model:
append `i` to the list of the first pair with key `k`, or add a new pair
at the end. -/
def entryPush (m : List (String × List Nat)) (k : String) (i : Nat) :
    List (String × List Nat) :=
  match m with
  | [] => [(k, [i])]
  | p :: rest =>
      if p.1 = k then (p.1, p.2 ++ [i]) :: rest else p :: entryPush rest k i

/-- `PlaylistService::extract_metadata` on a file whose probe succeeded:
primary tag falling back to first tag, each tag field copied when present,
duration always populated from the properties. -/
def extract_metadata (path : String) (pr : ProbeResult) : TrackMetadata :=
  let tag := match pr.primaryTag with
    | some t => some t
    | none => pr.firstTag
  { path := path
    album := tag.bind Tag.album
    artist := tag.bind Tag.artist
    genre := tag.bind Tag.genre
    year := tag.bind Tag.year
    duration := some pr.durationSecs }

/-- The body of `scan_directory`'s loop for one `Ok` walk entry: skip
non-audio entries; on successful extraction index the new track's genre
(normalized key) and artist, then append it; on extraction failure append
the track with every metadata field empty. -/
def scanStep (s : PlaylistService) (e : FileEntry) : PlaylistService :=
  if e.isFile && is_audio_file e then
    match e.probe with
    | some pr =>
        ⟨s.tracks ++ [extract_metadata e.path pr],
         match (extract_metadata e.path pr).genre with
         | some g => entryPush s.genres (normalize_genre g) s.tracks.length
         | none => s.genres,
         match (extract_metadata e.path pr).artist with
         | some a => entryPush s.artists a s.tracks.length
         | none => s.artists⟩
    | none =>
        ⟨s.tracks ++ [⟨e.path, none, none, none, none, none⟩],
         s.genres, s.artists⟩
  else s

/-- The `for entry in WalkDir::new(dir)` loop: `entry?` propagates any
`Err` item immediately (returning with the state mutated so far and the
flag `false`); an exhausted walk returns `Ok` (`true`). -/
def scanLoop : PlaylistService → List (Option FileEntry) → PlaylistService × Bool
  | s, [] => (s, true)
  | s, none :: _ => (s, false)
  | s, some e :: rest => scanLoop (scanStep s e) rest

/-- `PlaylistService::clear_database`: empties tracks and both maps. -/
def clear_database (_s : PlaylistService) : PlaylistService :=
  ⟨[], [], []⟩

/-- `PlaylistService::scan_directory`: clears the database, then walks.
Returns the final state and `true` for `Ok(())` / `false` for `Err`. -/
def scan_directory (s : PlaylistService) (walk : List (Option FileEntry)) :
    PlaylistService × Bool :=
  scanLoop (clear_database s) walk

/-- First-match lookup in the association-list map (`HashMap::get`). -/
def lookupKey (m : List (String × List Nat)) (k : String) : Option (List Nat) :=
  match m with
  | [] => none
  | p :: rest => if p.1 = k then some p.2 else lookupKey rest k

/-- `indices.iter().map(|&i| self.tracks[i].path.clone()).collect()`,
with the potential panic of `self.tracks[i]` embedded as `none`. -/
def pathsAt (tracks : List TrackMetadata) : List Nat → Option (List String)
  | [] => some []
  | i :: is =>
      match tracks[i]? with
      | some t => (pathsAt tracks is).map (fun r => t.path :: r)
      | none => none

/-- `PlaylistService::get_playlist_by_genre`: normalize the query, look the
group up, map the indices through the track collection (`none` = the
out-of-bounds panic), empty list when the group is absent. -/
def get_playlist_by_genre (s : PlaylistService) (genre : String) :
    Option (List String) :=
  match lookupKey s.genres (normalize_genre genre) with
  | some indices => pathsAt s.tracks indices
  | none => some []

/-- `PlaylistService::get_genres`: the map's keys, sorted (`Vec::sort`,
stable ascending). -/
def get_genres (s : PlaylistService) : List String :=
  List.insertionSort (fun a b => a ≤ b) (s.genres.map (fun p => p.1))

/-- `PlaylistStats`. -/
structure PlaylistStats where
  total_tracks : Nat
  total_genres : Nat
  total_albums : Nat
  total_duration : Nat
deriving DecidableEq

/-- `PlaylistService::get_stats`: track count, genre-group count, count of
distinct album names, and the sum of the known durations. -/
def get_stats (s : PlaylistService) : PlaylistStats :=
  ⟨s.tracks.length,
   s.genres.length,
   (s.tracks.filterMap TrackMetadata.album).dedup.length,
   (s.tracks.filterMap TrackMetadata.duration).sum⟩

/-- Stable insertion (descending by count) modelling
`artists.sort_by(|a, b| b.1.cmp(&a.1))`, which is a stable sort putting
larger counts first: `x` is inserted before the first element whose count
is strictly smaller. -/
def insertByCountDesc (x : String × Nat) :
    List (String × Nat) → List (String × Nat)
  | [] => [x]
  | y :: ys => if y.2 ≤ x.2 then x :: y :: ys else y :: insertByCountDesc x ys

/-- Stable descending-by-count sort (`foldr` of the stable insertion). -/
def sortByCountDesc (l : List (String × Nat)) : List (String × Nat) :=
  l.foldr insertByCountDesc []

/-- `PlaylistService::get_top_artists`, parameterized by the `HashMap`
iteration order `it` (an arbitrary permutation of the map's contents):
collect `(artist, track-count)` pairs, stable-sort by count descending,
truncate to 5. -/
def get_top_artists (it : List (String × List Nat)) : List (String × Nat) :=
  (sortByCountDesc (it.map (fun p => (p.1, p.2.length)))).take 5

/-- Levenshtein edit distance between two strings (ordinary unit-cost
insert/delete/substitute), computed with a structural fuel of
`a.length + b.length`, which is enough for every recursion path. Used to
state the spec's genre fuzzy-merge claim. -/
def editDistanceFuel : Nat → List Char → List Char → Nat
  | _, [], ys => ys.length
  | _, xs, [] => xs.length
  | 0, xs, ys => xs.length + ys.length
  | fuel + 1, x :: xs, y :: ys =>
      if x = y then editDistanceFuel fuel xs ys
      else 1 + min (editDistanceFuel fuel xs ys)
                   (min (editDistanceFuel fuel (x :: xs) ys)
                        (editDistanceFuel fuel xs (y :: ys)))

/-- Edit distance on strings. -/
def editDistance (a b : String) : Nat :=
  editDistanceFuel (a.length + b.length) a.data b.data

/-- Tracks `i` and `j` are in the same genre group of `s`: some entry of
the genre map contains both indices. -/
def sameGenreGroup (s : PlaylistService) (i j : Nat) : Prop :=
  ∃ p ∈ s.genres, i ∈ p.2 ∧ j ∈ p.2

instance (s : PlaylistService) (i j : Nat) : Decidable (sameGenreGroup s i j) := by
  unfold sameGenreGroup
  infer_instance

/-- The genre map is exactly the normalized-genre index of the track
collection: every index stored under a key belongs to a track whose genre
normalizes to that key, and every track that has a genre is reachable
under its normalized genre. -/
def genresInv (s : PlaylistService) : Prop :=
  (∀ p ∈ s.genres, ∀ i ∈ p.2,
     ∃ t g, s.tracks[i]? = some t ∧ t.genre = some g ∧ normalize_genre g = p.1) ∧
  (∀ i t g, s.tracks[i]? = some t → t.genre = some g →
     ∃ l, lookupKey s.genres (normalize_genre g) = some l ∧ i ∈ l)

/-- Every index stored in the artist map is a valid offset into the track
collection. -/
def artistsIdxValid (s : PlaylistService) : Prop :=
  ∀ p ∈ s.artists, ∀ i ∈ p.2, i < s.tracks.length

/-! ## Playback engine (`player_service.rs`) -/

/-- `PlayerCommand`.  The play commands' path payloads do not affect the
modelled engine state; what does is whether sink creation / decoding
succeeds, carried as an explicit outcome flag (`Sink::try_new` and the
`Decoder` results). -/
inductive PlayerCommand where
  | playSong (ok : Bool)
  | playAlbum (ok : Bool)
  | playShuffle (ok : Bool)
  | togglePause
  | setVolume (v : ℚ)
  | volumeUp
  | volumeDown
  | stop
  | skipNext
  | quit
deriving DecidableEq

/-- `PlayerStatus`: the only status event is the current volume. -/
inductive PlayerStatus where
  | volume (v : ℚ)
deriving DecidableEq

/-- The live `Sink` when one exists: its paused flag and its own volume. -/
structure SinkState where
  paused : Bool
  sinkVolume : ℚ
deriving DecidableEq

/-- The state local to `player_loop`: the optional live sink and
`current_volume`. -/
structure EngineState where
  sink : Option SinkState
  current_volume : ℚ
deriving DecidableEq

/-- `PlayerService::update_volume`: set the live sink's volume if one
exists, always send a `Volume` status event (a disconnected receiver is
ignored), and return the new volume. -/
def update_volume (sink : Option SinkState) (volume : ℚ) :
    Option SinkState × List PlayerStatus × ℚ :=
  (sink.map (fun s => ⟨s.paused, volume⟩), [PlayerStatus.volume volume], volume)

/-- One dispatch of `player_loop`'s `match cmd` (the loop body): the new
engine state and the status events sent while handling the command.
`play_single_song`/`play_tracks` first take and stop any previous sink,
then install a fresh unpaused sink at the current volume on success and
leave the slot empty on failure; volume commands clamp/step and go
through `update_volume`; `Stop`/`Quit` take the sink; `SkipNext` only
touches the sink's internal queue (not modelled). -/
def player_step (st : EngineState) (cmd : PlayerCommand) :
    EngineState × List PlayerStatus :=
  match cmd with
  | .playSong ok =>
      (⟨if ok then some ⟨false, st.current_volume⟩ else none,
        st.current_volume⟩, [])
  | .playAlbum ok =>
      (⟨if ok then some ⟨false, st.current_volume⟩ else none,
        st.current_volume⟩, [])
  | .playShuffle ok =>
      (⟨if ok then some ⟨false, st.current_volume⟩ else none,
        st.current_volume⟩, [])
  | .togglePause =>
      match st.sink with
      | some s => (⟨some ⟨!s.paused, s.sinkVolume⟩, st.current_volume⟩, [])
      | none => (st, [])
  | .setVolume v =>
      (⟨(update_volume st.sink (max 0 (min v 2))).1,
        (update_volume st.sink (max 0 (min v 2))).2.2⟩,
       (update_volume st.sink (max 0 (min v 2))).2.1)
  | .volumeUp =>
      (⟨(update_volume st.sink (min (st.current_volume + 1/10) 2)).1,
        (update_volume st.sink (min (st.current_volume + 1/10) 2)).2.2⟩,
       (update_volume st.sink (min (st.current_volume + 1/10) 2)).2.1)
  | .volumeDown =>
      (⟨(update_volume st.sink (max (st.current_volume - 1/10) 0)).1,
        (update_volume st.sink (max (st.current_volume - 1/10) 0)).2.2⟩,
       (update_volume st.sink (max (st.current_volume - 1/10) 0)).2.1)
  | .stop => (⟨none, st.current_volume⟩, [])
  | .skipNext => (st, [])
  | .quit => (⟨none, st.current_volume⟩, [])

/-- The state `player_loop` starts from: no sink, volume `1.0`. -/
def initEngineState : EngineState := ⟨none, 1⟩

/-- `player_loop`'s processing of a finite command sequence, in submission
order: at `Quit` the sink is released and the loop breaks (later commands
are never processed). Returns the final state and all emitted events. -/
def player_run_from : EngineState → List PlayerCommand → EngineState × List PlayerStatus
  | st, [] => (st, [])
  | st, .quit :: _ => (⟨none, st.current_volume⟩, [])
  | st, c :: rest =>
      ((player_run_from (player_step st c).1 rest).1,
       (player_step st c).2 ++ (player_run_from (player_step st c).1 rest).2)

/-- A whole engine run from the initial state. -/
def player_run (cmds : List PlayerCommand) : EngineState × List PlayerStatus :=
  player_run_from initEngineState cmds

/-! ## Concrete fixtures used by the counterexamples -/

/-- A valid mp3 whose primary tag carries genre "Rock". -/
def rockEntry : FileEntry :=
  ⟨"/music/rock.mp3", true, some "mp3",
   some ⟨some ⟨none, none, some "Rock", none⟩, none, 100⟩⟩

/-- A valid mp3 whose primary tag carries genre "Rok" (a near-duplicate
spelling, edit distance 1 from "Rock" after normalization). -/
def rokEntry : FileEntry :=
  ⟨"/music/rok.mp3", true, some "mp3",
   some ⟨some ⟨none, none, some "Rok", none⟩, none, 90⟩⟩

/-- A valid mp3 whose primary tag carries genre "ROCK!!", which normalizes
to the same key as "Rock". -/
def rock2Entry : FileEntry :=
  ⟨"/music/rock2.mp3", true, some "mp3",
   some ⟨some ⟨none, none, some "ROCK!!", none⟩, none, 95⟩⟩

/-- A valid mp3 with no tag block at all (hence no genre). -/
def untaggedEntry : FileEntry :=
  ⟨"/music/untagged.mp3", true, some "mp3", some ⟨none, none, 120⟩⟩

/-- A supported audio file whose metadata extraction fails (lofty probe
error). -/
def badFileEntry : FileEntry :=
  ⟨"/music/corrupt.mp3", true, some "mp3", none⟩

/-- A library state holding one already-indexed track, used to observe
whether a failing scan preserves prior state. -/
def preState : PlaylistService :=
  ⟨[⟨"/old/track.mp3", none, none, some "Jazz", none, some 30⟩],
   [("jazz", [0])], [("Old Artist", [0])]⟩

/-! ## Helper lemmas -/

/-- Splitting the walk at the first `Err` item: the loop processes the
prefix and stops at the error with `Err`. -/
theorem scanLoop_append_err (s : PlaylistService) (pre : List FileEntry)
    (post : List (Option FileEntry)) :
    scanLoop s (pre.map some ++ none :: post)
      = ((scanLoop s (pre.map some)).1, false) := by
  induction pre generalizing s with
  | nil => rfl
  | cons e rest ih => simpa [scanLoop] using ih (scanStep s e)

/-- Looking up the key just pushed to: the index is appended to the
existing group (or a fresh singleton group appears). -/
theorem lookupKey_entryPush_self (m : List (String × List Nat)) (k : String) (i : Nat) :
    lookupKey (entryPush m k i) k = some ((lookupKey m k).getD [] ++ [i]) := by
  induction m with
  | nil => simp [entryPush, lookupKey]
  | cons p rest ih =>
      by_cases h : p.1 = k
      · simp [entryPush, lookupKey, h]
      · simp [entryPush, lookupKey, h, ih]

/-- Pushing to key `k` leaves every other key's group unchanged. -/
theorem lookupKey_entryPush_ne (m : List (String × List Nat)) (k k' : String)
    (i : Nat) (hne : k' ≠ k) :
    lookupKey (entryPush m k i) k' = lookupKey m k' := by
  induction m with
  | nil => simp [entryPush, lookupKey, Ne.symm hne]
  | cons p rest ih =>
      by_cases h : p.1 = k
      · have hne' : ¬ p.1 = k' := by rw [h]; exact Ne.symm hne
        simp [entryPush, lookupKey, h, hne', Ne.symm hne]
      · by_cases h2 : p.1 = k'
        · simp [entryPush, lookupKey, h, h2, hne]
        · simp [entryPush, lookupKey, h, h2, ih]

/-- An index found in some entry of `entryPush m k i` was either already
in an entry of `m` with the same key, or is the pushed index `i` under the
pushed key `k`. -/
theorem mem_entryPush (m : List (String × List Nat)) (k : String) (i : Nat)
    (p' : String × List Nat) (hp : p' ∈ entryPush m k i) (j : Nat) (hj : j ∈ p'.2) :
    (∃ p ∈ m, p.1 = p'.1 ∧ j ∈ p.2) ∨ (p'.1 = k ∧ j = i) := by
  induction m with
  | nil =>
      simp [entryPush] at hp
      subst hp
      simp at hj
      exact Or.inr ⟨rfl, hj⟩
  | cons q rest ih =>
      by_cases h : q.1 = k
      · simp only [entryPush, if_pos h] at hp
        rcases List.mem_cons.mp hp with h1 | h1
        · subst h1
          rcases List.mem_append.mp hj with h2 | h2
          · exact Or.inl ⟨q, List.mem_cons_self q rest, rfl, h2⟩
          · simp at h2
            exact Or.inr ⟨h, h2⟩
        · exact Or.inl ⟨p', List.mem_cons_of_mem q h1, rfl, hj⟩
      · simp only [entryPush, if_neg h] at hp
        rcases List.mem_cons.mp hp with h1 | h1
        · subst h1
          exact Or.inl ⟨p', List.mem_cons_self p' rest, rfl, hj⟩
        · rcases ih h1 with ⟨p, hpm, hpe, hjm⟩ | hr
          · exact Or.inl ⟨p, List.mem_cons_of_mem q hpm, hpe, hjm⟩
          · exact Or.inr hr

/-- A successful lookup names an actual entry of the map. -/
theorem lookupKey_mem (m : List (String × List Nat)) (k : String) (l : List Nat)
    (h : lookupKey m k = some l) : (k, l) ∈ m := by
  induction m with
  | nil => simp [lookupKey] at h
  | cons p rest ih =>
      by_cases hp : p.1 = k
      · simp only [lookupKey, if_pos hp] at h
        obtain rfl : l = p.2 := (Option.some.inj h).symm
        rw [← hp]
        exact List.mem_cons_self p rest
      · simp only [lookupKey, if_neg hp] at h
        exact List.mem_cons_of_mem p (ih h)

/-- Mapping in-bounds indices through the track collection never hits the
out-of-bounds panic. -/
theorem pathsAt_isSome (tracks : List TrackMetadata) (l : List Nat)
    (h : ∀ i ∈ l, i < tracks.length) : (pathsAt tracks l).isSome = true := by
  induction l with
  | nil => rfl
  | cons i is ih =>
      have hi : i < tracks.length := h i (List.mem_cons_self i is)
      have hg : tracks[i]? = some tracks[i] := List.getElem?_eq_getElem hi
      have hrest := ih (fun j hj => h j (List.mem_cons_of_mem i hj))
      simp [pathsAt, hg, hrest]

/-- `scanStep` on a skipped (non-audio) entry. -/
theorem scanStep_skip (s : PlaylistService) (e : FileEntry)
    (hf : ¬ (e.isFile && is_audio_file e) = true) : scanStep s e = s := by
  unfold scanStep
  rw [if_neg hf]

/-- `scanStep` on an audio file whose extraction fails. -/
theorem scanStep_probe_none (s : PlaylistService) (e : FileEntry)
    (hf : (e.isFile && is_audio_file e) = true) (hp : e.probe = none) :
    scanStep s e =
      ⟨s.tracks ++ [⟨e.path, none, none, none, none, none⟩],
       s.genres, s.artists⟩ := by
  unfold scanStep
  rw [if_pos hf, hp]

/-- `scanStep` on an audio file whose extraction succeeds. -/
theorem scanStep_probe_some (s : PlaylistService) (e : FileEntry) (pr : ProbeResult)
    (hf : (e.isFile && is_audio_file e) = true) (hp : e.probe = some pr) :
    scanStep s e =
      ⟨s.tracks ++ [extract_metadata e.path pr],
       match (extract_metadata e.path pr).genre with
       | some g => entryPush s.genres (normalize_genre g) s.tracks.length
       | none => s.genres,
       match (extract_metadata e.path pr).artist with
       | some a => entryPush s.artists a s.tracks.length
       | none => s.artists⟩ := by
  unfold scanStep
  rw [if_pos hf, hp]

/-- Appending one track and indexing its genre (if any) under the
normalized key preserves the genre-map characterization, whatever happens
to the artist map. -/
theorem genresInv_push (s : PlaylistService) (t : TrackMetadata)
    (a' : List (String × List Nat)) (h : genresInv s) :
    genresInv ⟨s.tracks ++ [t],
      match t.genre with
      | some g => entryPush s.genres (normalize_genre g) s.tracks.length
      | none => s.genres, a'⟩ := by
  obtain ⟨h1, h2⟩ := h
  cases hg : t.genre with
  | none =>
      constructor
      · intro p hpm i him
        obtain ⟨u, g, hget, hgen, hnorm⟩ := h1 p hpm i him
        have hlt : i < s.tracks.length := (List.getElem?_eq_some.mp hget).1
        exact ⟨u, g, by rw [List.getElem?_append_left hlt]; exact hget, hgen, hnorm⟩
      · intro i u g hget hgen
        rcases Nat.lt_trichotomy i s.tracks.length with hlt | heq | hgt
        · rw [List.getElem?_append_left hlt] at hget
          exact h2 i u g hget hgen
        · subst heq
          rw [List.getElem?_concat_length] at hget
          cases Option.some.inj hget
          rw [hg] at hgen
          cases hgen
        · rw [List.getElem?_eq_none (by simp; omega)] at hget
          cases hget
  | some g0 =>
      constructor
      · intro p' hpm i him
        rcases mem_entryPush s.genres (normalize_genre g0) s.tracks.length
            p' hpm i him with ⟨p, hpm0, hpe, him0⟩ | ⟨hpk, hii⟩
        · obtain ⟨u, g, hget, hgen, hnorm⟩ := h1 p hpm0 i him0
          have hlt : i < s.tracks.length := (List.getElem?_eq_some.mp hget).1
          refine ⟨u, g, by rw [List.getElem?_append_left hlt]; exact hget, hgen, ?_⟩
          rw [hnorm]
          exact hpe
        · subst hii
          exact ⟨t, g0, List.getElem?_concat_length s.tracks t, hg, hpk.symm⟩
      · intro i u g hget hgen
        rcases Nat.lt_trichotomy i s.tracks.length with hlt | heq | hgt
        · rw [List.getElem?_append_left hlt] at hget
          obtain ⟨l, hl, hil⟩ := h2 i u g hget hgen
          by_cases hk : normalize_genre g = normalize_genre g0
          · rw [hk] at hl ⊢
            refine ⟨(lookupKey s.genres (normalize_genre g0)).getD [] ++
                      [s.tracks.length], lookupKey_entryPush_self s.genres
                      (normalize_genre g0) s.tracks.length, ?_⟩
            rw [hl]
            exact List.mem_append.mpr (Or.inl hil)
          · rw [lookupKey_entryPush_ne s.genres (normalize_genre g0)
                  (normalize_genre g) s.tracks.length hk]
            exact ⟨l, hl, hil⟩
        · subst heq
          rw [List.getElem?_concat_length] at hget
          cases Option.some.inj hget
          rw [hg] at hgen
          cases Option.some.inj hgen
          refine ⟨(lookupKey s.genres (normalize_genre g0)).getD [] ++
                    [s.tracks.length], lookupKey_entryPush_self s.genres
                    (normalize_genre g0) s.tracks.length, ?_⟩
          exact List.mem_append.mpr (Or.inr (by simp))
        · rw [List.getElem?_eq_none (by simp; omega)] at hget
          cases hget

/-- Appending one track and indexing its artist (if any) preserves
artist-index validity, whatever happens to the genre map. -/
theorem artistsIdxValid_push (s : PlaylistService) (t : TrackMetadata)
    (g' : List (String × List Nat)) (h : artistsIdxValid s) :
    artistsIdxValid ⟨s.tracks ++ [t], g',
      match t.artist with
      | some a => entryPush s.artists a s.tracks.length
      | none => s.artists⟩ := by
  unfold artistsIdxValid
  cases ha : t.artist with
  | none =>
      intro p hpm i him
      simp only [List.length_append, List.length_cons, List.length_nil]
      exact Nat.lt_succ_of_lt (h p hpm i him)
  | some a0 =>
      intro p' hpm i him
      simp only [List.length_append, List.length_cons, List.length_nil]
      rcases mem_entryPush s.artists a0 s.tracks.length p' hpm i him with
        ⟨p, hpm0, _, him0⟩ | ⟨_, hii⟩
      · exact Nat.lt_succ_of_lt (h p hpm0 i him0)
      · subst hii
        exact Nat.lt_succ_self s.tracks.length

/-- One scan-loop iteration preserves the genre-map characterization. -/
theorem genresInv_scanStep (s : PlaylistService) (e : FileEntry)
    (h : genresInv s) : genresInv (scanStep s e) := by
  by_cases hf : (e.isFile && is_audio_file e) = true
  · cases hp : e.probe with
    | none =>
        rw [scanStep_probe_none s e hf hp]
        exact genresInv_push s ⟨e.path, none, none, none, none, none⟩ s.artists h
    | some pr =>
        rw [scanStep_probe_some s e pr hf hp]
        exact genresInv_push s (extract_metadata e.path pr) _ h
  · rw [scanStep_skip s e hf]
    exact h

/-- One scan-loop iteration preserves artist-index validity. -/
theorem artistsIdxValid_scanStep (s : PlaylistService) (e : FileEntry)
    (h : artistsIdxValid s) : artistsIdxValid (scanStep s e) := by
  by_cases hf : (e.isFile && is_audio_file e) = true
  · cases hp : e.probe with
    | none =>
        rw [scanStep_probe_none s e hf hp]
        exact artistsIdxValid_push s ⟨e.path, none, none, none, none, none⟩ s.genres h
    | some pr =>
        rw [scanStep_probe_some s e pr hf hp]
        exact artistsIdxValid_push s (extract_metadata e.path pr) _ h
  · rw [scanStep_skip s e hf]
    exact h

/-- The empty library satisfies the genre-map characterization. -/
theorem genresInv_empty : genresInv ⟨[], [], []⟩ := by
  constructor
  · intro p hpm
    simp at hpm
  · intro i t g hget
    simp at hget

/-- The empty library satisfies artist-index validity. -/
theorem artistsIdxValid_empty : artistsIdxValid ⟨[], [], []⟩ := by
  intro p hpm
  simp at hpm

/-- The scan loop preserves both invariants, whether it completes or
aborts at a traversal error. -/
theorem inv_scanLoop (walk : List (Option FileEntry)) (s : PlaylistService)
    (h1 : genresInv s) (h2 : artistsIdxValid s) :
    genresInv (scanLoop s walk).1 ∧ artistsIdxValid (scanLoop s walk).1 := by
  induction walk generalizing s with
  | nil => exact ⟨h1, h2⟩
  | cons o rest ih =>
      cases o with
      | none => exact ⟨h1, h2⟩
      | some e =>
          exact ih (scanStep s e) (genresInv_scanStep s e h1)
            (artistsIdxValid_scanStep s e h2)

/-- Both invariants hold of the state left by any `scan_directory` call. -/
theorem inv_scan (s0 : PlaylistService) (walk : List (Option FileEntry)) :
    genresInv (scan_directory s0 walk).1 ∧
      artistsIdxValid (scan_directory s0 walk).1 :=
  inv_scanLoop walk ⟨[], [], []⟩ genresInv_empty artistsIdxValid_empty

/-- Membership after a stable descending insertion. -/
theorem mem_insertByCountDesc (x b : String × Nat) (l : List (String × Nat))
    (hb : b ∈ insertByCountDesc x l) : b = x ∨ b ∈ l := by
  induction l with
  | nil =>
      simp [insertByCountDesc] at hb
      exact Or.inl hb
  | cons y ys ih =>
      by_cases hc : y.2 ≤ x.2
      · rw [insertByCountDesc, if_pos hc] at hb
        rcases List.mem_cons.mp hb with rfl | hb2
        · exact Or.inl rfl
        · exact Or.inr hb2
      · rw [insertByCountDesc, if_neg hc] at hb
        rcases List.mem_cons.mp hb with hb1 | hb2
        · rw [hb1]
          exact Or.inr (List.mem_cons_self y ys)
        · rcases ih hb2 with h | h
          · exact Or.inl h
          · exact Or.inr (List.mem_cons_of_mem y h)

/-- Stable descending insertion preserves descending-by-count order. -/
theorem pairwise_insertByCountDesc (x : String × Nat) (l : List (String × Nat))
    (h : l.Pairwise (fun a b => b.2 ≤ a.2)) :
    (insertByCountDesc x l).Pairwise (fun a b => b.2 ≤ a.2) := by
  induction l with
  | nil =>
      simp [insertByCountDesc]
  | cons y ys ih =>
      rw [List.pairwise_cons] at h
      obtain ⟨hy, hys⟩ := h
      by_cases hc : y.2 ≤ x.2
      · rw [insertByCountDesc, if_pos hc]
        refine List.Pairwise.cons ?_ (List.Pairwise.cons hy hys)
        intro b hb
        rcases List.mem_cons.mp hb with rfl | hb2
        · exact hc
        · exact le_trans (hy b hb2) hc
      · rw [insertByCountDesc, if_neg hc]
        refine List.Pairwise.cons ?_ (ih hys)
        intro b hb
        rcases mem_insertByCountDesc x b ys hb with rfl | hb2
        · exact Nat.le_of_not_le hc
        · exact hy b hb2

/-- The stable descending sort is descending by count. -/
theorem pairwise_sortByCountDesc (l : List (String × Nat)) :
    (sortByCountDesc l).Pairwise (fun a b => b.2 ≤ a.2) := by
  induction l with
  | nil => exact List.Pairwise.nil
  | cons x xs ih => exact pairwise_insertByCountDesc x (sortByCountDesc xs) ih

/-- After a scan whose audio files all probed successfully, every track of
the resulting state carries a duration — provided those already present
did. -/
theorem scanLoop_duration_isSome (walk : List (Option FileEntry))
    (s : PlaylistService)
    (hs : ∀ t ∈ s.tracks, t.duration.isSome = true)
    (hsucc : ∀ o ∈ walk, ∀ e : FileEntry, o = some e → e.probe.isSome = true) :
    ∀ t ∈ (scanLoop s walk).1.tracks, t.duration.isSome = true := by
  induction walk generalizing s with
  | nil => exact hs
  | cons o rest ih =>
      cases o with
      | none => exact hs
      | some e =>
          refine ih (scanStep s e) ?_
            (fun o2 ho2 e2 he2 => hsucc o2 (List.mem_cons_of_mem _ ho2) e2 he2)
          have hpe : e.probe.isSome = true :=
            hsucc (some e) (List.mem_cons_self _ _) e rfl
          by_cases hf : (e.isFile && is_audio_file e) = true
          · cases hp : e.probe with
            | none =>
                rw [hp] at hpe
                cases hpe
            | some pr =>
                rw [scanStep_probe_some s e pr hf hp]
                intro t ht
                rcases List.mem_append.mp ht with h1 | h1
                · exact hs t h1
                · simp at h1
                  subst h1
                  rfl
          · rw [scanStep_skip s e hf]
            exact hs

/-- When every track's duration is present, summing the present durations
is summing all of them. -/
theorem filterMap_duration_sum (tracks : List TrackMetadata)
    (h : ∀ t ∈ tracks, t.duration.isSome = true) :
    (tracks.filterMap TrackMetadata.duration).sum =
      (tracks.map (fun t => t.duration.getD 0)).sum := by
  induction tracks with
  | nil => rfl
  | cons t ts ih =>
      have ht := h t (List.mem_cons_self t ts)
      cases hd : t.duration with
      | none =>
          rw [hd] at ht
          cases ht
      | some d =>
          have hrest := ih (fun u hu => h u (List.mem_cons_of_mem t hu))
          simp [List.filterMap_cons, hd, hrest]

/-! ## Claims -/

/-- C2, counterexample: `clear_database` runs before the walk starts, so
when the root cannot be opened (the walk's only item is an `Err`),
`scan_directory` returns an error but the previous library state has
already been wiped — the state is mutated in this failure case. -/
theorem scan_root_failure_mutates_state :
    (scan_directory preState [none]).2 = false ∧
    (scan_directory preState [none]).1 ≠ preState := by decide

/-- C2, amended: if the root directory cannot be opened, `scan_directory`
returns an error and leaves the library in the cleared (empty) state
produced by the initial `clear_database` call — the prior state is not
preserved. -/
theorem scan_root_failure_error_and_cleared (s : PlaylistService)
    (rest : List (Option FileEntry)) :
    scan_directory s (none :: rest) = (⟨[], [], []⟩, false) := rfl

/-- C3, counterexample: a traversal error on a non-root entry (here the
second walk item, between two good audio files) is not skipped: `entry?`
makes the whole scan return an error, and the file after the error is
never indexed (only 1 track instead of 2). -/
theorem scan_entry_error_aborts_cex :
    (scan_directory ⟨[], [], []⟩ [some rockEntry, none, some untaggedEntry]).2 = false ∧
    (scan_directory ⟨[], [], []⟩
        [some rockEntry, none, some untaggedEntry]).1.tracks.length = 1 := by decide

/-- C3, amended: a directory-traversal error on any entry aborts the whole
scan with an error; the entries before the error remain indexed and the
entries after it are never processed. -/
theorem scan_entry_error_aborts_scan (s : PlaylistService) (pre : List FileEntry)
    (post : List (Option FileEntry)) :
    scan_directory s (pre.map some ++ none :: post)
      = ((scan_directory s (pre.map some)).1, false) := by
  unfold scan_directory
  exact scanLoop_append_err (clear_database s) pre post

/-- C4, counterexample: scanning one valid mp3 tagged "Rock" and one file
with no genre tag does *not* yield `genres() == ["Rock"]`: the group is
keyed by the normalized tag, so the key is `"rock"`. -/
theorem genres_raw_key_cex :
    get_genres (scan_directory ⟨[], [], []⟩
        [some rockEntry, some untaggedEntry]).1 ≠ ["Rock"] := by decide

/-- C4, amended: a new genre group is keyed by the *normalized* tag and
`genres()` returns the sorted group keys; scanning one valid mp3 tagged
"Rock" plus one file with no genre tag yields `genres() == ["rock"]` and
`stats().total_tracks == 2`. -/
theorem genres_normalized_key_and_sorted :
    get_genres (scan_directory ⟨[], [], []⟩
        [some rockEntry, some untaggedEntry]).1 = ["rock"] ∧
    (get_stats (scan_directory ⟨[], [], []⟩
        [some rockEntry, some untaggedEntry]).1).total_tracks = 2 ∧
    ∀ s : PlaylistService, List.Sorted (fun a b => a ≤ b) (get_genres s) := by
  refine ⟨by decide, by decide, fun s => List.sorted_insertionSort _ _⟩

/-- C1, amended: genre insertion uses the normalized tag directly as the
group key, with no edit-distance comparison — after any scan, two tracks
carrying genre tags land in the same group if and only if the tags'
normalized forms are exactly equal. -/
theorem genre_group_iff_normalized_eq (s0 : PlaylistService)
    (walk : List (Option FileEntry)) (i j : Nat) (ti tj : TrackMetadata)
    (gi gj : String)
    (hi : (scan_directory s0 walk).1.tracks[i]? = some ti)
    (hgi : ti.genre = some gi)
    (hj : (scan_directory s0 walk).1.tracks[j]? = some tj)
    (hgj : tj.genre = some gj) :
    sameGenreGroup (scan_directory s0 walk).1 i j ↔
      normalize_genre gi = normalize_genre gj := by
  obtain ⟨⟨inv1, inv2⟩, -⟩ := inv_scan s0 walk
  constructor
  · rintro ⟨p, hp, hip, hjp⟩
    obtain ⟨t, g, hget, hgen, hnorm⟩ := inv1 p hp i hip
    obtain ⟨t', g', hget', hgen', hnorm'⟩ := inv1 p hp j hjp
    rw [hi] at hget
    cases Option.some.inj hget
    rw [hgi] at hgen
    cases Option.some.inj hgen
    rw [hj] at hget'
    cases Option.some.inj hget'
    rw [hgj] at hgen'
    cases Option.some.inj hgen'
    rw [hnorm, hnorm']
  · intro hn
    obtain ⟨l, hl, hil⟩ := inv2 i ti gi hi hgi
    obtain ⟨l', hl', hjl⟩ := inv2 j tj gj hj hgj
    rw [hn, hl'] at hl
    cases Option.some.inj hl
    exact ⟨(normalize_genre gj, l), lookupKey_mem _ _ _ hl', hil, hjl⟩

/-- Witness for the amended C1 theorem at a concrete scan: "Rock" and
"ROCK!!" normalize identically, and indeed land in the same group. -/
theorem genre_group_iff_normalized_eq_witness :
    sameGenreGroup (scan_directory ⟨[], [], []⟩
        [some rockEntry, some rock2Entry]).1 0 1 ↔
      normalize_genre "Rock" = normalize_genre "ROCK!!" :=
  genre_group_iff_normalized_eq ⟨[], [], []⟩ [some rockEntry, some rock2Entry]
    0 1
    ⟨"/music/rock.mp3", none, none, some "Rock", none, some 100⟩
    ⟨"/music/rock2.mp3", none, none, some "ROCK!!", none, some 95⟩
    "Rock" "ROCK!!" (by decide) rfl (by decide) rfl

/-- C8: after every scan (completed or aborted), every index in the genre
map and in the artist map is a valid offset into the track collection, so
`get_playlist_by_genre`'s indexing never goes out of bounds (`isSome`
says the embedded panic case is never reached). -/
theorem index_validity_invariant (s0 : PlaylistService)
    (walk : List (Option FileEntry)) (genre : String) :
    (∀ p ∈ (scan_directory s0 walk).1.genres, ∀ i ∈ p.2,
        i < (scan_directory s0 walk).1.tracks.length) ∧
    (∀ p ∈ (scan_directory s0 walk).1.artists, ∀ i ∈ p.2,
        i < (scan_directory s0 walk).1.tracks.length) ∧
    (get_playlist_by_genre (scan_directory s0 walk).1 genre).isSome = true := by
  obtain ⟨⟨hg1, -⟩, ha⟩ := inv_scan s0 walk
  refine ⟨?_, ha, ?_⟩
  · intro p hpm i him
    obtain ⟨t, -, hget, -, -⟩ := hg1 p hpm i him
    exact (List.getElem?_eq_some.mp hget).1
  · unfold get_playlist_by_genre
    cases hk : lookupKey (scan_directory s0 walk).1.genres
        (normalize_genre genre) with
    | none => rfl
    | some l =>
        apply pathsAt_isSome
        intro i hil
        obtain ⟨t, -, hget, -, -⟩ := hg1 _ (lookupKey_mem _ _ _ hk) i hil
        exact (List.getElem?_eq_some.mp hget).1

/-- C1, counterexample: genre insertion performs no edit-distance
comparison — "Rock" and "Rok" normalize to "rock" and "rok", which are
within edit distance 2, yet the two tracks land in different groups. -/
theorem genre_fuzzy_merge_cex :
    (scan_directory ⟨[], [], []⟩ [some rockEntry, some rokEntry]).1.tracks.length = 2 ∧
    editDistance (normalize_genre "Rock") (normalize_genre "Rok") ≤ 2 ∧
    ¬ sameGenreGroup (scan_directory ⟨[], [], []⟩
        [some rockEntry, some rokEntry]).1 0 1 := by decide

/-- C5, counterexample: the pairs handed to the sort come from iterating a
`HashMap`, whose order is arbitrary — two iteration orders of the *same*
artist map (a permutation) produce different outputs on a count tie, so
ties are not broken by the map's insertion order. -/
theorem top_artists_tiebreak_cex :
    List.Perm [(("b" : String), [(1 : Nat)]), ("a", [0])] [("a", [0]), ("b", [1])] ∧
    get_top_artists [("b", [1]), ("a", [0])] ≠
      get_top_artists [("a", [0]), ("b", [1])] :=
  ⟨List.Perm.swap ("a", [0]) ("b", [1]) [], by decide⟩

/-- C5, amended: for every library state and every iteration order of its
artist map, `get_top_artists` returns at most 5 pairs, ordered by count
descending (stably); the tie order is the map's arbitrary iteration
order, not its insertion order. -/
theorem top_artists_at_most_five_sorted (s : PlaylistService)
    (it : List (String × List Nat)) (hperm : List.Perm it s.artists) :
    (get_top_artists it).length ≤ 5 ∧
    (get_top_artists it).Pairwise (fun a b => b.2 ≤ a.2) := by
  constructor
  · unfold get_top_artists
    rw [List.length_take]
    exact min_le_left 5 _
  · unfold get_top_artists
    exact (pairwise_sortByCountDesc _).sublist (List.take_sublist 5 _)

/-- Witness for the amended C5 theorem at a concrete one-artist library. -/
theorem top_artists_at_most_five_sorted_witness :
    (get_top_artists [("Old Artist", [0])]).length ≤ 5 ∧
    (get_top_artists [("Old Artist", [0])]).Pairwise (fun a b => b.2 ≤ a.2) :=
  top_artists_at_most_five_sorted preState [("Old Artist", [0])]
    (List.Perm.refl [("Old Artist", [0])])

/-- C7: when metadata extraction fails for a supported audio file, the
track is still appended with every metadata field empty (maps untouched),
and the scan loop then continues with the remaining entries. -/
theorem extractor_failure_recovery (s : PlaylistService) (e : FileEntry)
    (rest : List (Option FileEntry))
    (hfile : e.isFile = true) (hext : is_audio_file e = true)
    (hfail : e.probe = none) :
    scanStep s e =
      ⟨s.tracks ++ [⟨e.path, none, none, none, none, none⟩],
       s.genres, s.artists⟩ ∧
    scanLoop s (some e :: rest) =
      scanLoop ⟨s.tracks ++ [⟨e.path, none, none, none, none, none⟩],
                s.genres, s.artists⟩ rest := by
  have hf : (e.isFile && is_audio_file e) = true := by simp [hfile, hext]
  have h1 := scanStep_probe_none s e hf hfail
  refine ⟨h1, ?_⟩
  show scanLoop (scanStep s e) rest = _
  rw [h1]

/-- Witness for C7 at a concrete corrupt file followed by a good one. -/
theorem extractor_failure_recovery_witness :
    scanStep ⟨[], [], []⟩ badFileEntry =
      ⟨[⟨"/music/corrupt.mp3", none, none, none, none, none⟩], [], []⟩ ∧
    scanLoop ⟨[], [], []⟩ (some badFileEntry :: [some rockEntry]) =
      scanLoop ⟨[⟨"/music/corrupt.mp3", none, none, none, none, none⟩], [], []⟩
        [some rockEntry] :=
  extractor_failure_recovery ⟨[], [], []⟩ badFileEntry [some rockEntry]
    rfl (by decide) rfl

/-- C10: `extract_metadata` always populates the duration on its success
path; consequently, after a scan in which every audio file's probe
succeeded, every track carries a duration and `stats().total_duration`
sums the duration of every track. -/
theorem duration_populated_on_success (path : String) (pr : ProbeResult)
    (s0 : PlaylistService) (walk : List (Option FileEntry))
    (hsucc : ∀ o ∈ walk, ∀ e : FileEntry, o = some e → e.probe.isSome = true) :
    (extract_metadata path pr).duration = some pr.durationSecs ∧
    (∀ t ∈ (scan_directory s0 walk).1.tracks, t.duration.isSome = true) ∧
    (get_stats (scan_directory s0 walk).1).total_duration =
      ((scan_directory s0 walk).1.tracks.map (fun t => t.duration.getD 0)).sum := by
  have hall : ∀ t ∈ (scan_directory s0 walk).1.tracks, t.duration.isSome = true :=
    scanLoop_duration_isSome walk ⟨[], [], []⟩ (by intro t ht; cases ht) hsucc
  exact ⟨rfl, hall, filterMap_duration_sum _ hall⟩

/-- Witness for C10 at a concrete all-successful scan. -/
theorem duration_populated_on_success_witness :
    (extract_metadata "/p.mp3" ⟨none, none, 7⟩).duration = some 7 ∧
    (∀ t ∈ (scan_directory ⟨[], [], []⟩ [some rockEntry]).1.tracks,
        t.duration.isSome = true) ∧
    (get_stats (scan_directory ⟨[], [], []⟩ [some rockEntry]).1).total_duration =
      ((scan_directory ⟨[], [], []⟩ [some rockEntry]).1.tracks.map
        (fun t => t.duration.getD 0)).sum :=
  duration_populated_on_success "/p.mp3" ⟨none, none, 7⟩ ⟨[], [], []⟩
    [some rockEntry]
    (by
      intro o ho e he
      rcases List.mem_cons.mp ho with h1 | h2
      · rw [h1] at he
        cases Option.some.inj he
        rfl
      · exact absurd h2 (List.not_mem_nil o))

/-- Every single command keeps the engine volume within `[0, 2]`. -/
theorem player_step_volume_bounds (st : EngineState) (c : PlayerCommand)
    (h0 : 0 ≤ st.current_volume) (h2 : st.current_volume ≤ 2) :
    0 ≤ (player_step st c).1.current_volume ∧
    (player_step st c).1.current_volume ≤ 2 := by
  cases c with
  | playSong ok => exact ⟨h0, h2⟩
  | playAlbum ok => exact ⟨h0, h2⟩
  | playShuffle ok => exact ⟨h0, h2⟩
  | togglePause =>
      cases st with
      | mk sink vol =>
          cases sink with
          | none => exact ⟨h0, h2⟩
          | some s => exact ⟨h0, h2⟩
  | setVolume v =>
      constructor
      · exact le_max_left 0 (min v 2)
      · exact max_le (by norm_num) (min_le_right v 2)
  | volumeUp =>
      constructor
      · exact le_min (by linarith) (by norm_num)
      · exact min_le_right (st.current_volume + 1/10) 2
  | volumeDown =>
      constructor
      · exact le_max_right (st.current_volume - 1/10) 0
      · exact max_le (by linarith) (by norm_num)
  | stop => exact ⟨h0, h2⟩
  | skipNext => exact ⟨h0, h2⟩
  | quit => exact ⟨h0, h2⟩

/-- The processing loop keeps the engine volume within `[0, 2]`. -/
theorem player_run_from_volume_bounds (cmds : List PlayerCommand)
    (st : EngineState) (h0 : 0 ≤ st.current_volume)
    (h2 : st.current_volume ≤ 2) :
    0 ≤ (player_run_from st cmds).1.current_volume ∧
    (player_run_from st cmds).1.current_volume ≤ 2 := by
  induction cmds generalizing st with
  | nil => exact ⟨h0, h2⟩
  | cons c rest ih =>
      cases c with
      | quit => exact ⟨h0, h2⟩
      | playSong ok =>
          have hb := player_step_volume_bounds st (.playSong ok) h0 h2
          exact ih (player_step st (.playSong ok)).1 hb.1 hb.2
      | playAlbum ok =>
          have hb := player_step_volume_bounds st (.playAlbum ok) h0 h2
          exact ih (player_step st (.playAlbum ok)).1 hb.1 hb.2
      | playShuffle ok =>
          have hb := player_step_volume_bounds st (.playShuffle ok) h0 h2
          exact ih (player_step st (.playShuffle ok)).1 hb.1 hb.2
      | togglePause =>
          have hb := player_step_volume_bounds st .togglePause h0 h2
          exact ih (player_step st .togglePause).1 hb.1 hb.2
      | setVolume v =>
          have hb := player_step_volume_bounds st (.setVolume v) h0 h2
          exact ih (player_step st (.setVolume v)).1 hb.1 hb.2
      | volumeUp =>
          have hb := player_step_volume_bounds st .volumeUp h0 h2
          exact ih (player_step st .volumeUp).1 hb.1 hb.2
      | volumeDown =>
          have hb := player_step_volume_bounds st .volumeDown h0 h2
          exact ih (player_step st .volumeDown).1 hb.1 hb.2
      | stop =>
          have hb := player_step_volume_bounds st .stop h0 h2
          exact ih (player_step st .stop).1 hb.1 hb.2
      | skipNext =>
          have hb := player_step_volume_bounds st .skipNext h0 h2
          exact ih (player_step st .skipNext).1 hb.1 hb.2

/-- C6: from any in-range volume, `SetVolume(v)` clamps to `[0, 2]`,
`VolumeUp`/`VolumeDown` step by `0.1` staying within `[0, 2]`, each of the
three emits exactly one `VolumeChanged` status event carrying the new
volume (with or without a live sink — the event equations hold for every
`st.sink`); `SetVolume(3)` yields `2`, `VolumeDown` at `0` stays at `0`,
and every command sequence from engine start keeps the volume in
`[0, 2]`. -/
theorem volume_command_semantics (st : EngineState) (v : ℚ)
    (cmds : List PlayerCommand)
    (h0 : 0 ≤ st.current_volume) (h2 : st.current_volume ≤ 2) :
    ((player_step st (.setVolume v)).1.current_volume = max 0 (min v 2) ∧
     0 ≤ (player_step st (.setVolume v)).1.current_volume ∧
     (player_step st (.setVolume v)).1.current_volume ≤ 2 ∧
     (player_step st (.setVolume v)).2 =
       [PlayerStatus.volume (player_step st (.setVolume v)).1.current_volume]) ∧
    ((player_step st .volumeUp).1.current_volume =
       min (st.current_volume + 1/10) 2 ∧
     0 ≤ (player_step st .volumeUp).1.current_volume ∧
     (player_step st .volumeUp).1.current_volume ≤ 2 ∧
     (player_step st .volumeUp).2 =
       [PlayerStatus.volume (player_step st .volumeUp).1.current_volume]) ∧
    ((player_step st .volumeDown).1.current_volume =
       max (st.current_volume - 1/10) 0 ∧
     0 ≤ (player_step st .volumeDown).1.current_volume ∧
     (player_step st .volumeDown).1.current_volume ≤ 2 ∧
     (player_step st .volumeDown).2 =
       [PlayerStatus.volume (player_step st .volumeDown).1.current_volume]) ∧
    (player_step st (.setVolume 3)).1.current_volume = 2 ∧
    (st.current_volume = 0 →
       (player_step st .volumeDown).1.current_volume = 0) ∧
    (0 ≤ (player_run cmds).1.current_volume ∧
     (player_run cmds).1.current_volume ≤ 2) := by
  refine ⟨⟨rfl, ?_, ?_, rfl⟩, ⟨rfl, ?_, ?_, rfl⟩, ⟨rfl, ?_, ?_, rfl⟩, ?_, ?_, ?_⟩
  · exact (player_step_volume_bounds st (.setVolume v) h0 h2).1
  · exact (player_step_volume_bounds st (.setVolume v) h0 h2).2
  · exact (player_step_volume_bounds st .volumeUp h0 h2).1
  · exact (player_step_volume_bounds st .volumeUp h0 h2).2
  · exact (player_step_volume_bounds st .volumeDown h0 h2).1
  · exact (player_step_volume_bounds st .volumeDown h0 h2).2
  · show max 0 (min 3 2) = 2
    norm_num
  · intro hz
    show max (st.current_volume - 1/10) 0 = 0
    rw [hz]
    norm_num
  · exact player_run_from_volume_bounds cmds initEngineState
      (by norm_num [initEngineState]) (by norm_num [initEngineState])

/-- Witness for C6 at the initial engine state (no live sink). -/
theorem volume_command_semantics_witness :
    0 ≤ initEngineState.current_volume ∧ initEngineState.current_volume ≤ 2 ∧
    (player_step initEngineState (.setVolume 3)).1.current_volume = 2 ∧
    (player_step initEngineState (.setVolume 3)).2 =
      [PlayerStatus.volume
        (player_step initEngineState (.setVolume 3)).1.current_volume] := by
  have h := volume_command_semantics initEngineState 3 [PlayerCommand.volumeDown]
    (by norm_num [initEngineState]) (by norm_num [initEngineState])
  exact ⟨by norm_num [initEngineState], by norm_num [initEngineState],
         h.2.2.2.1, h.1.2.2.2⟩

/-- C9: after a `Stop` command the engine holds no live sink and emits no
event, and a `TogglePause` processed while nothing is loaded (no sink)
changes no state, creates no sink, and emits no status event — in
particular immediately after a `Stop`. -/
theorem stop_then_toggle_pause_noop (st st' : EngineState)
    (h : st'.sink = none) :
    (player_step st .stop).1.sink = none ∧
    (player_step st .stop).2 = [] ∧
    player_step st' .togglePause = (st', []) ∧
    player_step (player_step st .stop).1 .togglePause =
      ((player_step st .stop).1, []) := by
  refine ⟨rfl, rfl, ?_, rfl⟩
  cases st' with
  | mk sink vol =>
      cases sink with
      | none => rfl
      | some s => simp at h

/-- Witness for C9 at the initial engine state. -/
theorem stop_then_toggle_pause_noop_witness :
    initEngineState.sink = none ∧
    (player_step initEngineState .stop).1.sink = none ∧
    player_step initEngineState .togglePause = (initEngineState, []) :=
  ⟨rfl,
   (stop_then_toggle_pause_noop initEngineState initEngineState rfl).1,
   (stop_then_toggle_pause_noop initEngineState initEngineState rfl).2.2.1⟩
